import Mathlib

/-!
# Verification of the ShotNPin region/annotation engine

Shallow embedding of `src/shot-pin/shotnpin.py`: selection geometry
(`_apply_resize`, `_move_selection`, `_finalize_selection`,
`_handle_arrow_key_movement`), the pen-drawing clamp
(`ActionBar.handle_mouse_move` / `_clamp_pos_to_only_pixmap`), the bounded
undo/redo history (`_save_annotation_state`, `undo_action`, `redo_action`,
`_restore_annotation_state`), history transfer on pinning
(`pin_to_screen` / `PinnedOverlay.__init__`), and multi-screen compositing
(`_capture_all_screens` / `get_virtual_desktop_bounds`).

Machine conventions: Qt integer geometry is embedded with `Int`; `QRect`
keeps Qt's inclusive right/bottom convention (`width = right - left + 1`).
Python list slicing/indexing (which accepts negative positions) is embedded
by `pySliceTo` / `pyGet`.  Pixel rasters are embedded as total functions
from integer coordinates to pixel values; `QPixmap.copy(rect)` and
`QPainter.drawPixmap` with matching source/target sizes become `Canvas.crop`
and `Canvas.paste`.  Device-pixel ratios are embedded as rationals and
Python's `int(...)` truncation as `pyInt`.
-/

namespace ShotNPin

/-! ## Application constants (shotnpin.py lines 52-69) -/

def RESIZE_HANDLE_SIZE : Int := 8

def MIN_SIZE : Int := 2

def MAX_HISTORY : Nat := 20

def KEYBOARD_STEP_SMALL : Int := 1

def KEYBOARD_STEP_LARGE : Int := 10

/-! ## Qt geometry -/

/-- `QPoint`: an integer point. -/
structure QPoint where
  x : Int
  y : Int
deriving DecidableEq, Repr

/-- `QRect` in Qt's inclusive convention: the rectangle spans columns
`left..right` and rows `top..bottom`, so `width = right - left + 1`. -/
structure QRect where
  left : Int
  top : Int
  right : Int
  bottom : Int
deriving DecidableEq, Repr

def QRect.width (r : QRect) : Int := r.right - r.left + 1

def QRect.height (r : QRect) : Int := r.bottom - r.top + 1

/-- `QRect(p, q)` from two corner points. -/
def QRect.ofPoints (p q : QPoint) : QRect := ⟨p.x, p.y, q.x, q.y⟩

/-- `QRect(x, y, w, h)` from origin and size. -/
def QRect.ofSize (x y w h : Int) : QRect := ⟨x, y, x + w - 1, y + h - 1⟩

/-- `QRect.normalized()` (Qt 6 semantics: the swap preserves the absolute
width/height of the rectangle). -/
def QRect.normalized (r : QRect) : QRect :=
  let xs := if r.right < r.left then (r.right + 1, r.left - 1) else (r.left, r.right)
  let ys := if r.bottom < r.top then (r.bottom + 1, r.top - 1) else (r.top, r.bottom)
  ⟨xs.1, ys.1, xs.2, ys.2⟩

def QRect.topLeft (r : QRect) : QPoint := ⟨r.left, r.top⟩

def QRect.bottomRight (r : QRect) : QPoint := ⟨r.right, r.bottom⟩

/-- `QRect.contains(point)`: the point is inside or on the edge. -/
def QRect.containsPt (r : QRect) (p : QPoint) : Bool :=
  r.left ≤ p.x ∧ p.x ≤ r.right ∧ r.top ≤ p.y ∧ p.y ≤ r.bottom

/-- `QRect.adjusted(dl, dt, dr, db)`. -/
def QRect.adjusted (r : QRect) (dl dt dr db : Int) : QRect :=
  ⟨r.left + dl, r.top + dt, r.right + dr, r.bottom + db⟩

/-! ## Python helpers -/

/-- Python list slice `l[:k]` (negative `k` counts from the end). -/
def pySliceTo {α : Type} (l : List α) (k : Int) : List α :=
  if 0 ≤ k then l.take k.toNat else l.take ((l.length : Int) + k).toNat

/-- Python list indexing `l[i]` (negative `i` counts from the end;
`none` is an `IndexError`). -/
def pyGet {α : Type} (l : List α) (i : Int) : Option α :=
  if 0 ≤ i then l.get? i.toNat
  else if 0 ≤ (l.length : Int) + i then l.get? ((l.length : Int) + i).toNat
  else none

/-- Python `int(q)`: truncation toward zero. -/
def pyInt (q : ℚ) : Int := if q < 0 then -(⌊-q⌋) else ⌊q⌋

/-- Python floor division `a // b`. -/
def pyFloorDiv (a b : Int) : Int := Int.fdiv a b

/-! ## Selection geometry: `CaptureOverlay._apply_resize` (lines 1462-1488) -/

/-- The eight `resize_edge` tags produced by `_get_resize_edge`. -/
inductive ResizeEdge where
  | left | right | top | bottom
  | topLeft | topRight | bottomLeft | bottomRight
deriving DecidableEq, Repr

/-- `CaptureOverlay._apply_resize(mouse_x, mouse_y)`: the pair
`(start_pos, end_pos)` after the resize operation for the active edge.
Each moved coordinate is clamped against the opposite edge at `MIN_SIZE`
separation, exactly as the `resize_operations` table does. -/
def applyResize (edge : ResizeEdge) (startPos endPos : QPoint) (mouseX mouseY : Int) :
    QPoint × QPoint :=
  match edge with
  | .left => ({ startPos with x := min mouseX (endPos.x - MIN_SIZE) }, endPos)
  | .right => (startPos, { endPos with x := max mouseX (startPos.x + MIN_SIZE) })
  | .top => ({ startPos with y := min mouseY (endPos.y - MIN_SIZE) }, endPos)
  | .bottom => (startPos, { endPos with y := max mouseY (startPos.y + MIN_SIZE) })
  | .topLeft =>
      (⟨min mouseX (endPos.x - MIN_SIZE), min mouseY (endPos.y - MIN_SIZE)⟩, endPos)
  | .topRight =>
      ({ startPos with y := min mouseY (endPos.y - MIN_SIZE) },
       { endPos with x := max mouseX (startPos.x + MIN_SIZE) })
  | .bottomLeft =>
      ({ startPos with x := min mouseX (endPos.x - MIN_SIZE) },
       { endPos with y := max mouseY (startPos.y + MIN_SIZE) })
  | .bottomRight =>
      (startPos, ⟨max mouseX (startPos.x + MIN_SIZE), max mouseY (startPos.y + MIN_SIZE)⟩)

/-! ## Selection geometry: `CaptureOverlay._move_selection` (lines 1490-1501)
and `_handle_arrow_key_movement` (lines 1532-1548) -/

/-- `CaptureOverlay._move_selection(new_pos)`: translate the selection to
`new_pos`, clamped to `[0, width - |dx|] × [0, height - |dy|]`, preserving
the corner deltas.  `canvasW`/`canvasH` are the widget's `width()`/`height()`. -/
def moveSelection (canvasW canvasH : Int) (startPos endPos : QPoint) (newPos : QPoint) :
    QPoint × QPoint :=
  let deltaX := endPos.x - startPos.x
  let deltaY := endPos.y - startPos.y
  let newX := max 0 (min newPos.x (canvasW - |deltaX|))
  let newY := max 0 (min newPos.y (canvasH - |deltaY|))
  (⟨newX, newY⟩, ⟨newX + deltaX, newY + deltaY⟩)

/-- The four arrow keys handled by `_handle_arrow_key_movement`. -/
inductive ArrowKey where
  | left | right | up | down
deriving DecidableEq, Repr

/-- The `key_to_delta` table with `step = KEYBOARD_STEP_LARGE` when Shift is
held, else `KEYBOARD_STEP_SMALL`. -/
def arrowKeyDelta (key : ArrowKey) (shift : Bool) : Int × Int :=
  let step := if shift then KEYBOARD_STEP_LARGE else KEYBOARD_STEP_SMALL
  match key with
  | .left => (-step, 0)
  | .right => (step, 0)
  | .up => (0, -step)
  | .down => (0, step)

/-- `CaptureOverlay._handle_arrow_key_movement`: move the selection to
`start_pos + delta` via `_move_selection`. -/
def handleArrowKeyMovement (canvasW canvasH : Int) (startPos endPos : QPoint)
    (key : ArrowKey) (shift : Bool) : QPoint × QPoint :=
  let d := arrowKeyDelta key shift
  moveSelection canvasW canvasH startPos endPos ⟨startPos.x + d.1, startPos.y + d.2⟩

/-! ## Pixel rasters

A `QPixmap` is embedded as a total function from integer coordinates to
pixel values; the operations the history code performs on pixmaps —
`QPixmap.copy(rect)` and `QPainter.drawPixmap(rect, pixmap, pixmap.rect())`
with source and target of equal size — become `crop` and `paste`. -/

def Canvas : Type := Int → Int → Nat

/-- `base_pixmap.copy(rect)`: the crop's pixel `(dx, dy)` is the source pixel
`(rect.left + dx, rect.top + dy)`. -/
def Canvas.crop (c : Canvas) (r : QRect) : Canvas :=
  fun dx dy => c (r.left + dx) (r.top + dy)

/-- `painter.drawPixmap(rect, p, p.rect())` with `p` of exactly `rect`'s
size: pixels inside `rect` are replaced by `p`, the rest of `c` is kept. -/
def Canvas.paste (c : Canvas) (r : QRect) (p : Canvas) : Canvas :=
  fun x y =>
    if r.left ≤ x ∧ x ≤ r.right ∧ r.top ≤ y ∧ y ≤ r.bottom then
      p (x - r.left) (y - r.top)
    else c x y

/-! ## Undo/redo history (`OverlayBase`, lines 1221-1282) -/

/-- The `AnnotationState` dataclass (lines 116-120): a snapshot pixmap plus
the selection rectangle it was cropped from (`None` for a pinned overlay's
snapshots). -/
structure AnnotationState where
  screenshot : Canvas
  selection_rect : Option QRect

/-- The editor (`CaptureOverlay`) state the history claims are about:
the backing pixmap with its device-pixel ratio, the selection corners
(`None` when no selection), and the undo/redo stack with its index. -/
structure CaptureState where
  base_pixmap : Canvas
  dpr : ℚ
  start_pos : Option QPoint
  end_pos : Option QPoint
  annotation_states : List AnnotationState
  undo_redo_index : Int

/-- `CaptureOverlay.content_rect` (lines 1351-1356): the normalized rectangle
of the selection corners, or `None`. -/
def CaptureState.content_rect (s : CaptureState) : Option QRect :=
  match s.start_pos, s.end_pos with
  | some p, some q => some ((QRect.ofPoints p q).normalized)
  | _, _ => none

/-- `CaptureOverlay._scale_rect` (lines 1606-1615): identity when the
device-pixel ratio is ≤ 1, otherwise each component is multiplied by the
ratio and truncated with `int(...)`. -/
def scaleRect (dpr : ℚ) (r : QRect) : QRect :=
  if dpr ≤ 1 then r
  else
    QRect.ofSize (pyInt ((r.left : ℚ) * dpr)) (pyInt ((r.top : ℚ) * dpr))
      (pyInt ((r.width : ℚ) * dpr)) (pyInt ((r.height : ℚ) * dpr))

/-- `CaptureOverlay._get_content_for_export` (lines 1617-1626): the cropped
pixmap and the selection rectangle when the selection exists and both its
dimensions exceed `MIN_SIZE`, else `(None, None)`. -/
def getContentForExport (s : CaptureState) : Option (Canvas × QRect) :=
  match s.content_rect with
  | some selection_rect =>
      if MIN_SIZE < selection_rect.width ∧ MIN_SIZE < selection_rect.height then
        some (s.base_pixmap.crop (scaleRect s.dpr selection_rect), selection_rect)
      else none
  | none => none

/-- `OverlayBase._init_annotation_states` (lines 1221-1224). -/
def initAnnotationStates (s : CaptureState) : CaptureState :=
  { s with annotation_states := [], undo_redo_index := -1 }

/-- `OverlayBase._save_annotation_state` (lines 1226-1244): truncate the
redo branch (`states[:index+1]`), append the crop of the current content,
advance the index; if the list then exceeds `MAX_HISTORY`, `pop(0)` and
decrement the index.  `none` is the `AttributeError` raised by
`cropped.copy()` when the selection is missing or too small. -/
def saveAnnotationState (s : CaptureState) : Option CaptureState :=
  match getContentForExport s with
  | none => none
  | some (cropped, selection_rect) =>
      let states := pySliceTo s.annotation_states (s.undo_redo_index + 1)
      let states := states ++ [⟨cropped, some selection_rect⟩]
      let index := s.undo_redo_index + 1
      if MAX_HISTORY < states.length then
        some { s with annotation_states := states.drop 1, undo_redo_index := index - 1 }
      else
        some { s with annotation_states := states, undo_redo_index := index }

/-- `OverlayBase._restore_annotation_state` (lines 1260-1282), editor branch:
paint the stored crop back onto `base_pixmap` at its stored rectangle.
`none` is an `IndexError` (index out of range) or the `TypeError` of drawing
at a `None` rectangle. -/
def restoreAnnotationState (s : CaptureState) (index : Int) : Option CaptureState :=
  match pyGet s.annotation_states index with
  | none => none
  | some st =>
      match st.selection_rect with
      | none => none
      | some r => some { s with base_pixmap := s.base_pixmap.paste r st.screenshot }

/-- `OverlayBase.undo_action` (lines 1246-1251): decrement and restore when
`undo_redo_index > 0`, else do nothing. -/
def undo_action (s : CaptureState) : Option CaptureState :=
  if 0 < s.undo_redo_index then
    let s1 := { s with undo_redo_index := s.undo_redo_index - 1 }
    restoreAnnotationState s1 s1.undo_redo_index
  else some s

/-- `OverlayBase.redo_action` (lines 1253-1258): increment and restore when
`undo_redo_index < len(annotation_states) - 1`, else do nothing. -/
def redo_action (s : CaptureState) : Option CaptureState :=
  if s.undo_redo_index < (s.annotation_states.length : Int) - 1 then
    let s1 := { s with undo_redo_index := s.undo_redo_index + 1 }
    restoreAnnotationState s1 s1.undo_redo_index
  else some s

/-- The index invariant of the history: the current index addresses a valid
snapshot. -/
def HistoryInv (s : CaptureState) : Prop :=
  0 ≤ s.undo_redo_index ∧ s.undo_redo_index < (s.annotation_states.length : Int)

/-! ## Selection finalization (`CaptureOverlay._finalize_selection`,
lines 1503-1530) -/

/-- `_finalize_selection`: if there is no selection or its width or height
is ≤ `MIN_SIZE`, reset both corners to `None` and return (discard); else
freeze the corners to the normalized rectangle's `topLeft`/`bottomRight`,
show the actionbar (the returned flag), reset the history and save the first
snapshot.  The gallery append (`_add_to_screenshot_snapshots`) does not touch
the fields modelled here. -/
def finalizeSelection (s : CaptureState) : Option (CaptureState × Bool) :=
  match s.content_rect with
  | none => some ({ s with start_pos := none, end_pos := none }, false)
  | some selection_rect =>
      if selection_rect.width ≤ MIN_SIZE ∨ selection_rect.height ≤ MIN_SIZE then
        some ({ s with start_pos := none, end_pos := none }, false)
      else
        let s1 := { s with start_pos := some selection_rect.topLeft,
                           end_pos := some selection_rect.bottomRight }
        (saveAnnotationState (initAnnotationStates s1)).map (fun s2 => (s2, true))

/-! ## Pinning (`CaptureOverlay.pin_to_screen`, lines 1628-1645, and
`PinnedOverlay.__init__`, lines 1697-1705) -/

/-- The pinned overlay state the history-transfer claim is about. -/
structure PinnedState where
  base_pixmap : Canvas
  annotation_states : List AnnotationState
  undo_redo_index : Int

/-- `PinnedOverlay.__init__`'s history setup: a truthy (non-empty)
`annotation_states` argument is installed together with its index; otherwise
the overlay starts a fresh history and saves one snapshot of its own pixmap
(`PinnedOverlay._get_content_for_export` returns `(base_pixmap, None)`, so
that snapshot's rectangle is `None` and the index becomes 0). -/
def pinnedOverlayInit (pixmap : Canvas) (annotation_states : List AnnotationState)
    (undo_redo_index : Int) : PinnedState :=
  if annotation_states.isEmpty then
    { base_pixmap := pixmap, annotation_states := [⟨pixmap, none⟩], undo_redo_index := 0 }
  else
    { base_pixmap := pixmap, annotation_states := annotation_states,
      undo_redo_index := undo_redo_index }

/-- `CaptureOverlay.pin_to_screen`: when the export is non-`None`, construct
the `PinnedOverlay` with the editor's `annotation_states` and
`undo_redo_index`, then reset the editor's `annotation_states` to `[]`. -/
def pin_to_screen (s : CaptureState) : CaptureState × Option PinnedState :=
  match getContentForExport s with
  | some (cropped, _) =>
      let pinned := pinnedOverlayInit cropped s.annotation_states s.undo_redo_index
      ({ s with annotation_states := [] }, some pinned)
  | none => (s, none)

/-! ## Pen drawing (`ActionBar`, lines 844-861 and 903-945) -/

/-- The `ActionBar` fields driving the pen tool, plus a log of the line
segments drawn into the pixmap (`painter.drawLine(last, pos)`). -/
structure PenDrawState where
  drawing : Bool
  last_point : QPoint
  last_point_clamped : Bool
  segments : List (QPoint × QPoint)
deriving DecidableEq, Repr

/-- `pen_half_width = self.pen_width_slider.value() // 2`. -/
def penHalfWidth (penWidth : Int) : Int := pyFloorDiv penWidth 2

/-- `ActionBar._clamp_pos_to_only_pixmap` (lines 844-861), window
coordinates: clamp to `[left + 1 + phw, right - 1 - phw] ×
[top + 1 + phw, bottom - 1 - phw]`. -/
def clampPosToOnlyPixmap (content_rect : QRect) (penWidth : Int) (pos : QPoint) : QPoint :=
  let phw := penHalfWidth penWidth
  ⟨max (content_rect.left + 1 + phw) (min pos.x (content_rect.right - 1 - phw)),
   max (content_rect.top + 1 + phw) (min pos.y (content_rect.bottom - 1 - phw))⟩

/-- `ActionBar.handle_mouse_press` (lines 888-901), pen branch: start a
stroke at `pos` with the clamp flag cleared. -/
def handlePenMousePress (pos : QPoint) : PenDrawState :=
  { drawing := true, last_point := pos, last_point_clamped := false, segments := [] }

/-- The `draw_rect` of `handle_mouse_move`:
`content_rect.adjusted(phw, phw, -phw, -phw)`. -/
def penDrawBounds (content_rect : QRect) (penWidth : Int) : QRect :=
  content_rect.adjusted (penHalfWidth penWidth) (penHalfWidth penWidth)
    (-(penHalfWidth penWidth)) (-(penHalfWidth penWidth))

/-- `ActionBar.handle_mouse_move` (lines 903-945), pen branch: return
unchanged while `last_point_clamped` is set; otherwise clamp the position
when it leaves the `draw_rect` (setting the flag), draw the segment from
`last_point`, and record the new point. -/
def handlePenMouseMove (content_rect : QRect) (penWidth : Int) (st : PenDrawState)
    (pos : QPoint) : PenDrawState :=
  if st.last_point_clamped then st
  else
    let draw_rect := penDrawBounds content_rect penWidth
    let clamped :=
      if ¬ draw_rect.containsPt pos then (clampPosToOnlyPixmap content_rect penWidth pos, true)
      else (pos, false)
    { st with segments := st.segments ++ [(st.last_point, clamped.1)],
              last_point := clamped.1,
              last_point_clamped := clamped.2 }

/-- A whole pen stroke: a press followed by a sequence of move events. -/
def penStroke (content_rect : QRect) (penWidth : Int) (pressPos : QPoint)
    (moves : List QPoint) : PenDrawState :=
  moves.foldl (handlePenMouseMove content_rect penWidth) (handlePenMousePress pressPos)

/-! ## Multi-screen compositing (`get_virtual_desktop_bounds`, lines 158-168,
and `AppController._capture_all_screens`, lines 367-412) -/

/-- A screen descriptor: `geometry()` origin and logical size,
`devicePixelRatio()`, and whether `grabWindow(0)` returned a non-null
pixmap. -/
structure ScreenDesc where
  left : Int
  top : Int
  width : Int
  height : Int
  dpr : ℚ
  captureOk : Bool
deriving DecidableEq, Repr

/-- `geometry().right()` in Qt: `left + width - 1`. -/
def ScreenDesc.right (s : ScreenDesc) : Int := s.left + s.width - 1

/-- `geometry().bottom()` in Qt: `top + height - 1`. -/
def ScreenDesc.bottom (s : ScreenDesc) : Int := s.top + s.height - 1

/-- The 4-tuple returned by `get_virtual_desktop_bounds`. -/
structure VirtualBounds where
  minX : Int
  minY : Int
  maxX : Int
  maxY : Int
deriving DecidableEq, Repr

/-- `get_virtual_desktop_bounds(screens)`: `min`/`max` of the screens'
left/top/right/bottom; `(0,0,0,0)` when the list is empty. -/
def get_virtual_desktop_bounds (screens : List ScreenDesc) : VirtualBounds :=
  match screens with
  | [] => ⟨0, 0, 0, 0⟩
  | sc :: rest =>
      ⟨rest.foldl (fun a t => min a t.left) sc.left,
       rest.foldl (fun a t => min a t.top) sc.top,
       rest.foldl (fun a t => max a t.right) sc.right,
       rest.foldl (fun a t => max a t.bottom) sc.bottom⟩

/-- `max(screen.devicePixelRatio() for screen in screens)`. -/
def maxDevicePixelRatio (screens : List ScreenDesc) : ℚ :=
  match screens with
  | [] => 0
  | sc :: rest => rest.foldl (fun a t => max a t.dpr) sc.dpr

/-- How one screen's pixels are placed into the combined pixmap: drawn at
native size, or first rescaled to a target pixel size (smoothly when the
`SmoothTransformation` flag is passed). -/
inductive Placement where
  | native (x y : Int)
  | scaled (x y targetW targetH : Int) (smooth : Bool)
deriving DecidableEq, Repr

/-- The combined capture: the output buffer's pixel size, its device-pixel
ratio, and per input screen either a placement or `none` for a screen whose
capture came back null (skipped). -/
structure CombinedCapture where
  bufferW : Int
  bufferH : Int
  bufferDpr : ℚ
  placements : List (Option Placement)
deriving DecidableEq, Repr

/-- One iteration of the placement loop in `_capture_all_screens`: skip a
null capture; otherwise place at `(left - min_x, top - min_y)`, rescaling
smoothly to `(int(width * max_dpr), int(height * max_dpr))` when the screen's
own ratio differs from the maximum. -/
def placeScreen (b : VirtualBounds) (maxDpr : ℚ) (sc : ScreenDesc) : Option Placement :=
  if sc.captureOk then
    some
      (if sc.dpr ≠ maxDpr then
        .scaled (sc.left - b.minX) (sc.top - b.minY)
          (pyInt ((sc.width : ℚ) * maxDpr)) (pyInt ((sc.height : ℚ) * maxDpr)) true
      else .native (sc.left - b.minX) (sc.top - b.minY))
  else none

/-- `AppController._capture_all_screens` (lines 367-412): `None` for an empty
screen list; else a buffer of `int(virtual_size * max_dpr)` pixels at ratio
`max_dpr`, with each screen placed by `placeScreen`. -/
def capture_all_screens (screens : List ScreenDesc) : Option CombinedCapture :=
  if screens.isEmpty then none
  else
    let b := get_virtual_desktop_bounds screens
    let virtual_width := b.maxX - b.minX + 1
    let virtual_height := b.maxY - b.minY + 1
    let max_dpr := maxDevicePixelRatio screens
    some
      { bufferW := pyInt ((virtual_width : ℚ) * max_dpr),
        bufferH := pyInt ((virtual_height : ℚ) * max_dpr),
        bufferDpr := max_dpr,
        placements := screens.map (placeScreen b max_dpr) }

/-! ## Concrete states used by witnesses and counterexamples -/

/-- An all-zero pixel raster. -/
def blankCanvas : Canvas := fun _ _ => 0

/-- The 100×50 region with corners (10,10)-(109,59) used by concrete runs. -/
def demoRect : QRect := ⟨10, 10, 109, 59⟩

/-- An editor with one committed snapshot at index 0 (both history
boundaries at once). -/
def boundaryState : CaptureState :=
  { base_pixmap := blankCanvas, dpr := 1, start_pos := some ⟨10, 10⟩,
    end_pos := some ⟨109, 59⟩,
    annotation_states := [⟨blankCanvas, some demoRect⟩], undo_redo_index := 0 }

/-- An editor with a frozen 100×50 selection and a freshly initialized
(empty) history. -/
def freshSelectedState : CaptureState :=
  { base_pixmap := blankCanvas, dpr := 1, start_pos := some ⟨10, 10⟩,
    end_pos := some ⟨109, 59⟩, annotation_states := [], undo_redo_index := -1 }

/-- An editor with two committed snapshots at index 1. -/
def twoSnapshotState : CaptureState :=
  { base_pixmap := blankCanvas, dpr := 1, start_pos := some ⟨10, 10⟩,
    end_pos := some ⟨109, 59⟩,
    annotation_states := [⟨blankCanvas, some demoRect⟩, ⟨blankCanvas, some demoRect⟩],
    undo_redo_index := 1 }

/-- An editor releasing a 3×3-pixel drag selection (corners (5,5)-(7,7)). -/
def c5state : CaptureState :=
  { base_pixmap := blankCanvas, dpr := 1, start_pos := some ⟨5, 5⟩,
    end_pos := some ⟨7, 7⟩, annotation_states := [], undo_redo_index := -1 }

/-- An editor releasing a 2×2-pixel drag selection (corners (0,0)-(1,1)). -/
def c5smallState : CaptureState :=
  { base_pixmap := blankCanvas, dpr := 1, start_pos := some ⟨0, 0⟩,
    end_pos := some ⟨1, 1⟩, annotation_states := [], undo_redo_index := -1 }

/-- The region of the concrete pen run: corners (0,0)-(100,100). -/
def c8rect : QRect := ⟨0, 0, 100, 100⟩

/-- Pen state after pressing at (50,50) and moving to (200,50), which leaves
the region on the right (pen width 2). -/
def c8afterClamp : PenDrawState :=
  handlePenMouseMove c8rect 2 (handlePenMousePress ⟨50, 50⟩) ⟨200, 50⟩

/-- Two screens side by side with device-pixel ratios 1 and 2. -/
def twoScreens : List ScreenDesc :=
  [⟨0, 0, 1920, 1080, 1, true⟩, ⟨1920, 0, 1600, 900, 2, true⟩]

end ShotNPin

namespace ShotNPin

/-! ## Theorems: C6 and C7 -/

/-- C6: For every frozen region and every resize from any single edge or
corner, with any input pointer coordinate (including coordinates outside the
Canvas), the resulting region's width and height never fall below the minimum
size: the moved corner is clamped so the opposite edge keeps at least
`MIN_SIZE` separation (hence rectangle width/height stay above `MIN_SIZE`). -/
theorem resize_keeps_min_size (edge : ResizeEdge) (startPos endPos : QPoint)
    (mouseX mouseY : Int)
    (hx : MIN_SIZE ≤ endPos.x - startPos.x) (hy : MIN_SIZE ≤ endPos.y - startPos.y) :
    MIN_SIZE ≤ (applyResize edge startPos endPos mouseX mouseY).2.x -
        (applyResize edge startPos endPos mouseX mouseY).1.x ∧
    MIN_SIZE ≤ (applyResize edge startPos endPos mouseX mouseY).2.y -
        (applyResize edge startPos endPos mouseX mouseY).1.y ∧
    MIN_SIZE < (QRect.ofPoints (applyResize edge startPos endPos mouseX mouseY).1
        (applyResize edge startPos endPos mouseX mouseY).2).width ∧
    MIN_SIZE < (QRect.ofPoints (applyResize edge startPos endPos mouseX mouseY).1
        (applyResize edge startPos endPos mouseX mouseY).2).height := by
  cases edge <;>
    simp only [applyResize, QRect.ofPoints, QRect.width, QRect.height, MIN_SIZE] at * <;>
    omega

/-- Witness for `resize_keeps_min_size` at a concrete region and pointer. -/
theorem resize_keeps_min_size_witness :
    MIN_SIZE ≤ (⟨110, 60⟩ : QPoint).x - (⟨10, 10⟩ : QPoint).x ∧
    MIN_SIZE ≤ (⟨110, 60⟩ : QPoint).y - (⟨10, 10⟩ : QPoint).y ∧
    (MIN_SIZE ≤ (applyResize .left ⟨10, 10⟩ ⟨110, 60⟩ (-500) 2000).2.x -
        (applyResize .left ⟨10, 10⟩ ⟨110, 60⟩ (-500) 2000).1.x ∧
     MIN_SIZE ≤ (applyResize .left ⟨10, 10⟩ ⟨110, 60⟩ (-500) 2000).2.y -
        (applyResize .left ⟨10, 10⟩ ⟨110, 60⟩ (-500) 2000).1.y ∧
     MIN_SIZE < (QRect.ofPoints (applyResize .left ⟨10, 10⟩ ⟨110, 60⟩ (-500) 2000).1
        (applyResize .left ⟨10, 10⟩ ⟨110, 60⟩ (-500) 2000).2).width ∧
     MIN_SIZE < (QRect.ofPoints (applyResize .left ⟨10, 10⟩ ⟨110, 60⟩ (-500) 2000).1
        (applyResize .left ⟨10, 10⟩ ⟨110, 60⟩ (-500) 2000).2).height) :=
  ⟨by decide, by decide,
   resize_keeps_min_size .left ⟨10, 10⟩ ⟨110, 60⟩ (-500) 2000 (by decide) (by decide)⟩

/-- C7: For every frozen region, dragging it (`_move_selection`) — and
translating it with arrow keys by a 1px step or a 10px step with Shift
(`_handle_arrow_key_movement`) — moves both corners by a common delta clamped
so that the region stays fully inside the Canvas bounds
(`0 ≤ corners ≤ canvas extent`), and its width and height are unchanged. -/
theorem move_selection_clamped_size_preserved (canvasW canvasH : Int)
    (startPos endPos : QPoint)
    (hx0 : 0 ≤ endPos.x - startPos.x) (hy0 : 0 ≤ endPos.y - startPos.y)
    (hxw : endPos.x - startPos.x ≤ canvasW) (hyh : endPos.y - startPos.y ≤ canvasH) :
    (∀ newPos : QPoint,
      let res := moveSelection canvasW canvasH startPos endPos newPos
      (res.2.x - res.1.x = endPos.x - startPos.x ∧
       res.2.y - res.1.y = endPos.y - startPos.y) ∧
      (res.2.x - endPos.x = res.1.x - startPos.x ∧
       res.2.y - endPos.y = res.1.y - startPos.y) ∧
      (0 ≤ res.1.x ∧ res.2.x ≤ canvasW ∧ 0 ≤ res.1.y ∧ res.2.y ≤ canvasH)) ∧
    (∀ (key : ArrowKey) (shift : Bool),
      let res := handleArrowKeyMovement canvasW canvasH startPos endPos key shift
      (res.2.x - res.1.x = endPos.x - startPos.x ∧
       res.2.y - res.1.y = endPos.y - startPos.y) ∧
      (0 ≤ res.1.x ∧ res.2.x ≤ canvasW ∧ 0 ≤ res.1.y ∧ res.2.y ≤ canvasH)) := by
  constructor
  · intro newPos
    simp only [moveSelection, abs_of_nonneg hx0, abs_of_nonneg hy0]
    refine ⟨⟨by omega, by omega⟩, ⟨by omega, by omega⟩, ?_, ?_, ?_, ?_⟩ <;> omega
  · intro key shift
    simp only [handleArrowKeyMovement, moveSelection, abs_of_nonneg hx0, abs_of_nonneg hy0]
    refine ⟨⟨by omega, by omega⟩, ?_, ?_, ?_, ?_⟩ <;> omega

/-- Witness for `move_selection_clamped_size_preserved` on a 100×50 region in
a 1920×1080 canvas, evaluated at a far-out-of-canvas drag target and at a
Shift+Right arrow step. -/
theorem move_selection_clamped_size_preserved_witness :
    (0 ≤ (⟨110, 60⟩ : QPoint).x - (⟨10, 10⟩ : QPoint).x ∧
     (⟨110, 60⟩ : QPoint).x - (⟨10, 10⟩ : QPoint).x ≤ 1920) ∧
    (let res := moveSelection 1920 1080 ⟨10, 10⟩ ⟨110, 60⟩ ⟨99999, -777⟩
     res.2.x - res.1.x = 100 ∧ 0 ≤ res.1.x ∧ res.2.x ≤ 1920) ∧
    (let res := handleArrowKeyMovement 1920 1080 ⟨10, 10⟩ ⟨110, 60⟩ .right true
     res.2.x - res.1.x = 100 ∧ res.2.x ≤ 1920) := by
  refine ⟨⟨by decide, by decide⟩, ?_, ?_⟩
  · have h := (move_selection_clamped_size_preserved 1920 1080 ⟨10, 10⟩ ⟨110, 60⟩
      (by decide) (by decide) (by decide) (by decide)).1 ⟨99999, -777⟩
    exact ⟨h.1.1, h.2.2.1, h.2.2.2.1⟩
  · have h := (move_selection_clamped_size_preserved 1920 1080 ⟨10, 10⟩ ⟨110, 60⟩
      (by decide) (by decide) (by decide) (by decide)).2 .right true
    exact ⟨h.1.1, h.2.2.1⟩

/-! ## Helper lemmas on Python-style list access -/

theorem pySliceTo_natCast {α : Type} (l : List α) (n : ℕ) :
    pySliceTo l (n : Int) = l.take n := by
  unfold pySliceTo
  rw [if_pos (by exact_mod_cast n.zero_le)]
  simp

theorem pyGet_natCast {α : Type} (l : List α) (n : ℕ) :
    pyGet l (n : Int) = l.get? n := by
  unfold pyGet
  rw [if_pos (by exact_mod_cast n.zero_le)]
  simp

/-! ## Unfolding lemmas for the match-based history operations -/

theorem getContentForExport_some (s : CaptureState) (r : QRect)
    (hr : s.content_rect = some r)
    (hw : MIN_SIZE < r.width) (hh : MIN_SIZE < r.height) :
    getContentForExport s = some (s.base_pixmap.crop (scaleRect s.dpr r), r) := by
  simp only [getContentForExport, hr]
  rw [if_pos ⟨hw, hh⟩]

theorem saveAnnotationState_of_export (s : CaptureState) (c : Canvas) (r : QRect)
    (h : getContentForExport s = some (c, r)) :
    saveAnnotationState s =
      (let states := pySliceTo s.annotation_states (s.undo_redo_index + 1) ++ [⟨c, some r⟩]
       if MAX_HISTORY < states.length then
         some { s with annotation_states := states.drop 1,
                       undo_redo_index := s.undo_redo_index + 1 - 1 }
       else
         some { s with annotation_states := states,
                       undo_redo_index := s.undo_redo_index + 1 }) := by
  simp only [saveAnnotationState, h]

theorem restoreAnnotationState_of_get (s : CaptureState) (index : Int)
    (st : AnnotationState) (r : QRect)
    (h1 : pyGet s.annotation_states index = some st) (h2 : st.selection_rect = some r) :
    restoreAnnotationState s index =
      some { s with base_pixmap := s.base_pixmap.paste r st.screenshot } := by
  simp only [restoreAnnotationState, h1, h2]

theorem saveAnnotationState_eq_some (s s' : CaptureState)
    (h : saveAnnotationState s = some s') :
    ∃ c r, getContentForExport s = some (c, r) ∧
      ((MAX_HISTORY <
          (pySliceTo s.annotation_states (s.undo_redo_index + 1) ++
            [(⟨c, some r⟩ : AnnotationState)]).length ∧
        s' = { s with
          annotation_states :=
            (pySliceTo s.annotation_states (s.undo_redo_index + 1) ++
              [(⟨c, some r⟩ : AnnotationState)]).drop 1,
          undo_redo_index := s.undo_redo_index + 1 - 1 }) ∨
       (¬ MAX_HISTORY <
          (pySliceTo s.annotation_states (s.undo_redo_index + 1) ++
            [(⟨c, some r⟩ : AnnotationState)]).length ∧
        s' = { s with
          annotation_states :=
            pySliceTo s.annotation_states (s.undo_redo_index + 1) ++
              [(⟨c, some r⟩ : AnnotationState)],
          undo_redo_index := s.undo_redo_index + 1 })) := by
  cases hexp : getContentForExport s with
  | none => simp [saveAnnotationState, hexp] at h
  | some pr =>
      obtain ⟨c, r⟩ := pr
      rw [saveAnnotationState_of_export s c r hexp] at h
      simp only at h
      refine ⟨c, r, rfl, ?_⟩
      by_cases hc : MAX_HISTORY <
          (pySliceTo s.annotation_states (s.undo_redo_index + 1) ++
            [(⟨c, some r⟩ : AnnotationState)]).length
      · rw [if_pos hc] at h
        exact Or.inl ⟨hc, (Option.some.inj h).symm⟩
      · rw [if_neg hc] at h
        exact Or.inr ⟨hc, (Option.some.inj h).symm⟩

theorem undo_action_of_get (s : CaptureState) (st : AnnotationState) (r : QRect)
    (hpos : 0 < s.undo_redo_index)
    (h1 : pyGet s.annotation_states (s.undo_redo_index - 1) = some st)
    (h2 : st.selection_rect = some r) :
    undo_action s = some { s with undo_redo_index := s.undo_redo_index - 1,
                                  base_pixmap := s.base_pixmap.paste r st.screenshot } := by
  unfold undo_action
  rw [if_pos hpos]
  exact restoreAnnotationState_of_get
    { s with undo_redo_index := s.undo_redo_index - 1 } _ st r h1 h2

theorem redo_action_of_get (s : CaptureState) (st : AnnotationState) (r : QRect)
    (hlt : s.undo_redo_index < (s.annotation_states.length : Int) - 1)
    (h1 : pyGet s.annotation_states (s.undo_redo_index + 1) = some st)
    (h2 : st.selection_rect = some r) :
    redo_action s = some { s with undo_redo_index := s.undo_redo_index + 1,
                                  base_pixmap := s.base_pixmap.paste r st.screenshot } := by
  unfold redo_action
  rw [if_pos hlt]
  exact restoreAnnotationState_of_get
    { s with undo_redo_index := s.undo_redo_index + 1 } _ st r h1 h2

theorem restoreAnnotationState_eq_some (s : CaptureState) (index : Int)
    (s' : CaptureState) (h : restoreAnnotationState s index = some s') :
    ∃ st r, pyGet s.annotation_states index = some st ∧ st.selection_rect = some r ∧
      s' = { s with base_pixmap := s.base_pixmap.paste r st.screenshot } := by
  cases hget : pyGet s.annotation_states index with
  | none => simp [restoreAnnotationState, hget] at h
  | some st =>
      cases hrect : st.selection_rect with
      | none => simp [restoreAnnotationState, hget, hrect] at h
      | some r =>
          rw [restoreAnnotationState_of_get s index st r hget hrect] at h
          exact ⟨st, r, rfl, hrect, (Option.some.inj h).symm⟩

theorem undo_action_eq_some (s s' : CaptureState) (h : undo_action s = some s') :
    (s.undo_redo_index ≤ 0 ∧ s' = s) ∨
    (0 < s.undo_redo_index ∧
      ∃ st r, pyGet s.annotation_states (s.undo_redo_index - 1) = some st ∧
        st.selection_rect = some r ∧
        s' = { s with undo_redo_index := s.undo_redo_index - 1,
                      base_pixmap := s.base_pixmap.paste r st.screenshot }) := by
  unfold undo_action at h
  by_cases hpos : 0 < s.undo_redo_index
  · rw [if_pos hpos] at h
    obtain ⟨st, r, h1, h2, h3⟩ := restoreAnnotationState_eq_some _ _ _ h
    exact Or.inr ⟨hpos, st, r, h1, h2, h3⟩
  · rw [if_neg hpos] at h
    exact Or.inl ⟨by omega, (Option.some.inj h).symm⟩

theorem redo_action_eq_some (s s' : CaptureState) (h : redo_action s = some s') :
    ((s.annotation_states.length : Int) - 1 ≤ s.undo_redo_index ∧ s' = s) ∨
    (s.undo_redo_index < (s.annotation_states.length : Int) - 1 ∧
      ∃ st r, pyGet s.annotation_states (s.undo_redo_index + 1) = some st ∧
        st.selection_rect = some r ∧
        s' = { s with undo_redo_index := s.undo_redo_index + 1,
                      base_pixmap := s.base_pixmap.paste r st.screenshot }) := by
  unfold redo_action at h
  by_cases hlt : s.undo_redo_index < (s.annotation_states.length : Int) - 1
  · rw [if_pos hlt] at h
    obtain ⟨st, r, h1, h2, h3⟩ := restoreAnnotationState_eq_some _ _ _ h
    exact Or.inr ⟨hlt, st, r, h1, h2, h3⟩
  · rw [if_neg hlt] at h
    exact Or.inl ⟨by omega, (Option.some.inj h).symm⟩

/-! ## Theorems: C3, boundary no-ops -/

/-- C3: For every history, `undo_action` when the current index is at the
bottom boundary (`index ≤ 0`) and `redo_action` when it is at the tail
(`index ≥ len - 1`) are no-ops: they raise no exception (the result is
`some`) and leave the snapshot list, the current index, and the Canvas
unchanged (the state is returned as-is). -/
theorem undo_redo_boundary_noop (s : CaptureState) :
    (s.undo_redo_index ≤ 0 → undo_action s = some s) ∧
    ((s.annotation_states.length : Int) - 1 ≤ s.undo_redo_index → redo_action s = some s) := by
  constructor
  · intro h
    unfold undo_action
    rw [if_neg (by omega)]
  · intro h
    unfold redo_action
    rw [if_neg (by omega)]

/-- Witness for `undo_redo_boundary_noop`: a one-snapshot history at index 0
is left untouched by both `undo_action` and `redo_action`. -/
theorem undo_redo_boundary_noop_witness :
    (boundaryState.undo_redo_index ≤ 0 ∧
      (boundaryState.annotation_states.length : Int) - 1 ≤ boundaryState.undo_redo_index) ∧
    undo_action boundaryState = some boundaryState ∧
    redo_action boundaryState = some boundaryState :=
  ⟨⟨by decide, by simp [boundaryState]⟩,
   (undo_redo_boundary_noop boundaryState).1 (by decide),
   (undo_redo_boundary_noop boundaryState).2 (by simp [boundaryState])⟩

/-! ## Theorems: C2, commit semantics -/

/-- C2: For every history state with a valid selection, a commit
(`_save_annotation_state`) truncates all snapshots stored after the current
index, appends the new snapshot, and advances the index by 1; if the
resulting length exceeds `MAX_HISTORY = 20`, exactly the oldest entry
(index 0) is evicted and the index decremented by 1, preserving the relative
order of the remaining snapshots (the result is the tail of the appended
list), so the history length never exceeds the bound. -/
theorem save_commit_semantics (s : CaptureState) (r : QRect)
    (hr : s.content_rect = some r)
    (hw : MIN_SIZE < r.width) (hh : MIN_SIZE < r.height)
    (n : ℕ) (hn : s.undo_redo_index + 1 = (n : Int))
    (hlen : s.annotation_states.length ≤ MAX_HISTORY) :
    ∃ s' : CaptureState,
      saveAnnotationState s = some s' ∧
      (let appended := s.annotation_states.take n ++
        [⟨s.base_pixmap.crop (scaleRect s.dpr r), some r⟩]
       (appended.length ≤ MAX_HISTORY →
          s'.annotation_states = appended ∧
          s'.undo_redo_index = s.undo_redo_index + 1) ∧
       (MAX_HISTORY < appended.length →
          s'.annotation_states = appended.drop 1 ∧
          s'.undo_redo_index = s.undo_redo_index ∧
          s'.annotation_states.length = MAX_HISTORY)) ∧
      s'.annotation_states.length ≤ MAX_HISTORY := by
  have hexp := getContentForExport_some s r hr hw hh
  rw [saveAnnotationState_of_export s _ r hexp]
  rw [hn, pySliceTo_natCast]
  simp only []
  set appended := s.annotation_states.take n ++
    [(⟨s.base_pixmap.crop (scaleRect s.dpr r), some r⟩ : AnnotationState)] with happ
  have hlapp : appended.length = min n s.annotation_states.length + 1 := by
    simp [happ, List.length_take]
  by_cases hc : MAX_HISTORY < appended.length
  · rw [if_pos hc]
    refine ⟨_, rfl, ⟨fun hle => absurd hc (by omega), fun _ => ⟨rfl, ?_, ?_⟩⟩, ?_⟩
    · show (n : Int) - 1 = s.undo_redo_index
      omega
    · show (appended.drop 1).length = MAX_HISTORY
      simp only [List.length_drop]
      omega
    · show (appended.drop 1).length ≤ MAX_HISTORY
      simp only [List.length_drop]
      omega
  · rw [if_neg hc]
    refine ⟨_, rfl, ⟨fun _ => ⟨rfl, rfl⟩, fun hgt => absurd hgt hc⟩, ?_⟩
    show appended.length ≤ MAX_HISTORY
    omega

/-- Witness for `save_commit_semantics`: committing on a fresh history
(index −1, valid 100×50 selection) appends one snapshot and moves the index
to 0. -/
theorem save_commit_semantics_witness :
    (freshSelectedState.content_rect = some ⟨10, 10, 109, 59⟩ ∧
     MIN_SIZE < (⟨10, 10, 109, 59⟩ : QRect).width ∧
     freshSelectedState.undo_redo_index + 1 = ((0 : ℕ) : Int) ∧
     freshSelectedState.annotation_states.length ≤ MAX_HISTORY) ∧
    (∃ s' : CaptureState,
      saveAnnotationState freshSelectedState = some s' ∧
      (let appended := freshSelectedState.annotation_states.take 0 ++
        [⟨freshSelectedState.base_pixmap.crop
            (scaleRect freshSelectedState.dpr ⟨10, 10, 109, 59⟩), some ⟨10, 10, 109, 59⟩⟩]
       (appended.length ≤ MAX_HISTORY →
          s'.annotation_states = appended ∧
          s'.undo_redo_index = freshSelectedState.undo_redo_index + 1) ∧
       (MAX_HISTORY < appended.length →
          s'.annotation_states = appended.drop 1 ∧
          s'.undo_redo_index = freshSelectedState.undo_redo_index ∧
          s'.annotation_states.length = MAX_HISTORY)) ∧
      s'.annotation_states.length ≤ MAX_HISTORY) :=
  ⟨⟨rfl, by decide, by decide, by decide⟩,
   save_commit_semantics freshSelectedState ⟨10, 10, 109, 59⟩ rfl (by decide) (by decide)
     0 (by decide) (by decide)⟩

/-! ## Theorems: C10, the index invariant -/

/-- C10 (implicit invariant): once a history is initialized and its first
snapshot saved, the index satisfies `0 ≤ undo_redo_index ≤ length − 1`, and
every commit, `undo_action` and `redo_action` preserves it; under the
invariant the index passed to `_restore_annotation_state` by undo/redo
(`index ∓ 1`) always addresses a valid snapshot (`pyGet` succeeds), so the
restore is never invoked with an out-of-range index. -/
theorem history_index_invariant (s : CaptureState) :
    (∀ s', saveAnnotationState (initAnnotationStates s) = some s' → HistoryInv s') ∧
    (HistoryInv s →
      (∀ s', saveAnnotationState s = some s' → HistoryInv s') ∧
      (0 < s.undo_redo_index →
        (pyGet s.annotation_states (s.undo_redo_index - 1)).isSome) ∧
      (∀ s', undo_action s = some s' → HistoryInv s') ∧
      (s.undo_redo_index < (s.annotation_states.length : Int) - 1 →
        (pyGet s.annotation_states (s.undo_redo_index + 1)).isSome) ∧
      (∀ s', redo_action s = some s' → HistoryInv s')) := by
  constructor
  · intro s' hs'
    obtain ⟨c, r, -, hcase⟩ := saveAnnotationState_eq_some _ _ hs'
    have hslice : pySliceTo (initAnnotationStates s).annotation_states
        ((initAnnotationStates s).undo_redo_index + 1) = [] := by
      show pySliceTo ([] : List AnnotationState) ((-1 : Int) + 1) = []
      rw [show (-1 : Int) + 1 = ((0 : ℕ) : Int) by norm_num, pySliceTo_natCast]
      rfl
    rw [hslice] at hcase
    rcases hcase with ⟨hgt, -⟩ | ⟨-, rfl⟩
    · simp [MAX_HISTORY] at hgt
    · exact ⟨by norm_num [initAnnotationStates, HistoryInv],
        by norm_num [initAnnotationStates, HistoryInv]⟩
  · intro hInv
    obtain ⟨h0, hlt⟩ := hInv
    obtain ⟨n, hn⟩ := Int.eq_ofNat_of_zero_le h0
    have hnlen : n < s.annotation_states.length := by omega
    refine ⟨?_, ?_, ?_, ?_, ?_⟩
    · intro s' hs'
      obtain ⟨c, r, -, hcase⟩ := saveAnnotationState_eq_some _ _ hs'
      have hslice : pySliceTo s.annotation_states (s.undo_redo_index + 1) =
          s.annotation_states.take (n + 1) := by
        rw [show s.undo_redo_index + 1 = ((n + 1 : ℕ) : Int) by omega, pySliceTo_natCast]
      rw [hslice] at hcase
      have hlenL : (s.annotation_states.take (n + 1) ++
          [(⟨c, some r⟩ : AnnotationState)]).length =
          min (n + 1) s.annotation_states.length + 1 := by
        simp [List.length_take]
      rcases hcase with ⟨hgt, rfl⟩ | ⟨hle, rfl⟩
      · refine ⟨by simp only; omega, ?_⟩
        simp only [List.length_drop, hlenL]
        omega
      · exact ⟨by simp only; omega, by simp only [hlenL]; omega⟩
    · intro hpos
      rw [show s.undo_redo_index - 1 = ((n - 1 : ℕ) : Int) by omega, pyGet_natCast]
      rw [List.get?_eq_get (by omega)]
      rfl
    · intro s' hs'
      rcases undo_action_eq_some _ _ hs' with ⟨-, rfl⟩ | ⟨hpos, st, r, -, -, rfl⟩
      · exact ⟨h0, hlt⟩
      · exact ⟨by simp only; omega, by simp only; omega⟩
    · intro hlt'
      rw [show s.undo_redo_index + 1 = ((n + 1 : ℕ) : Int) by omega, pyGet_natCast]
      rw [List.get?_eq_get (by omega)]
      rfl
    · intro s' hs'
      rcases redo_action_eq_some _ _ hs' with ⟨-, rfl⟩ | ⟨hpos, st, r, -, -, rfl⟩
      · exact ⟨h0, hlt⟩
      · exact ⟨by simp only; omega, by simp only; omega⟩

/-! ## Theorems: C1, the undo/redo round trip -/

theorem paste_inside (c p : Canvas) (r : QRect) (x y : Int)
    (hx1 : r.left ≤ x) (hx2 : x ≤ r.right) (hy1 : r.top ≤ y) (hy2 : y ≤ r.bottom) :
    Canvas.paste c r p x y = p (x - r.left) (y - r.top) := by
  simp only [Canvas.paste]
  rw [if_pos ⟨hx1, hx2, hy1, hy2⟩]

theorem paste_crop_cancel (c c' : Canvas) (r : QRect) (x y : Int) :
    Canvas.paste (Canvas.paste c r c') r (Canvas.crop c r) x y = c x y := by
  simp only [Canvas.paste, Canvas.crop]
  by_cases hin : r.left ≤ x ∧ x ≤ r.right ∧ r.top ≤ y ∧ y ≤ r.bottom
  · rw [if_pos hin]
    have e1 : r.left + (x - r.left) = x := by ring
    have e2 : r.top + (y - r.top) = y := by ring
    rw [e1, e2]
  · rw [if_neg hin, if_neg hin]

/-- After a commit the index sits at the tail; undoing restores the previous
snapshot's pixels and redoing restores the canvas pixel-for-pixel. -/
theorem undo_redo_from_saved (s1 : CaptureState) (r : QRect) (st : AnnotationState)
    (m : ℕ) (hm : 0 < m)
    (hidx : s1.undo_redo_index = (m : Int))
    (hlen : s1.annotation_states.length = m + 1)
    (hst : s1.annotation_states.get? (m - 1) = some st)
    (hrect : st.selection_rect = some r)
    (hlast : s1.annotation_states.get? m =
      some ⟨s1.base_pixmap.crop r, some r⟩) :
    ∃ s2 s3 : CaptureState,
      undo_action s1 = some s2 ∧
      s2.undo_redo_index = s1.undo_redo_index - 1 ∧
      (∀ x y : Int, r.left ≤ x → x ≤ r.right → r.top ≤ y → y ≤ r.bottom →
        s2.base_pixmap x y = st.screenshot (x - r.left) (y - r.top)) ∧
      redo_action s2 = some s3 ∧
      s3.undo_redo_index = s1.undo_redo_index ∧
      (∀ x y : Int, s3.base_pixmap x y = s1.base_pixmap x y) := by
  have hpos : 0 < s1.undo_redo_index := by omega
  have hget1 : pyGet s1.annotation_states (s1.undo_redo_index - 1) = some st := by
    rw [hidx, show (m : Int) - 1 = ((m - 1 : ℕ) : Int) by omega, pyGet_natCast]
    exact hst
  have hundo := undo_action_of_get s1 st r hpos hget1 hrect
  set s2 : CaptureState :=
    { s1 with undo_redo_index := s1.undo_redo_index - 1,
              base_pixmap := s1.base_pixmap.paste r st.screenshot } with hs2
  have hlt2 : s2.undo_redo_index < (s2.annotation_states.length : Int) - 1 := by
    show s1.undo_redo_index - 1 < (s1.annotation_states.length : Int) - 1
    omega
  have hget2 : pyGet s2.annotation_states (s2.undo_redo_index + 1) =
      some ⟨s1.base_pixmap.crop r, some r⟩ := by
    show pyGet s1.annotation_states (s1.undo_redo_index - 1 + 1) = _
    rw [hidx, show (m : Int) - 1 + 1 = ((m : ℕ) : Int) by omega, pyGet_natCast]
    exact hlast
  have hredo := redo_action_of_get s2 ⟨s1.base_pixmap.crop r, some r⟩ r hlt2 hget2 rfl
  refine ⟨s2, _, hundo, rfl, ?_, hredo, ?_, ?_⟩
  · intro x y hx1 hx2 hy1 hy2
    exact paste_inside _ _ _ _ _ hx1 hx2 hy1 hy2
  · show s1.undo_redo_index - 1 + 1 = s1.undo_redo_index
    omega
  · intro x y
    exact paste_crop_cancel s1.base_pixmap st.screenshot r x y

/-- C1: For every history containing at least one snapshot (the current
index addresses snapshot `st` whose rectangle is the live selection),
calling `undo_action` immediately after a commit (`_save_annotation_state`)
restores the region's Canvas pixels to exactly the pre-commit snapshot and
decreases the history index by exactly 1; calling `redo_action` immediately
after such an undo restores the pixels to exactly the pre-undo state
(round-trip law). -/
theorem undo_redo_round_trip (s : CaptureState) (r : QRect) (st : AnnotationState)
    (hdpr : s.dpr ≤ 1)
    (hr : s.content_rect = some r) (hw : MIN_SIZE < r.width) (hh : MIN_SIZE < r.height)
    (n : ℕ) (hn : s.undo_redo_index = (n : Int))
    (hst : s.annotation_states.get? n = some st)
    (hrect : st.selection_rect = some r) :
    ∃ s1 s2 s3 : CaptureState,
      saveAnnotationState s = some s1 ∧
      s1.base_pixmap = s.base_pixmap ∧
      undo_action s1 = some s2 ∧
      s2.undo_redo_index = s1.undo_redo_index - 1 ∧
      (∀ x y : Int, r.left ≤ x → x ≤ r.right → r.top ≤ y → y ≤ r.bottom →
        s2.base_pixmap x y = st.screenshot (x - r.left) (y - r.top)) ∧
      redo_action s2 = some s3 ∧
      s3.undo_redo_index = s1.undo_redo_index ∧
      (∀ x y : Int, s3.base_pixmap x y = s1.base_pixmap x y) := by
  have hnlen : n < s.annotation_states.length := by
    by_contra hcon
    rw [List.get?_eq_none.mpr (by omega)] at hst
    cases hst
  have hscale : scaleRect s.dpr r = r := by
    unfold scaleRect
    rw [if_pos hdpr]
  have hexp := getContentForExport_some s r hr hw hh
  rw [hscale] at hexp
  have hsave := saveAnnotationState_of_export s _ r hexp
  rw [show s.undo_redo_index + 1 = ((n + 1 : ℕ) : Int) by omega, pySliceTo_natCast]
    at hsave
  simp only [] at hsave
  set L := s.annotation_states.take (n + 1) ++
    [(⟨s.base_pixmap.crop r, some r⟩ : AnnotationState)] with hL
  have hLtake : (s.annotation_states.take (n + 1)).length = n + 1 := by
    simp [List.length_take]
    omega
  have hLlen : L.length = n + 2 := by
    simp only [hL, List.length_append, List.length_cons, List.length_nil, hLtake]
  have hLn : L.get? n = some st := by
    rw [hL, List.get?_append (by omega), List.get?_take (by omega)]
    exact hst
  have hLn1 : L.get? (n + 1) = some ⟨s.base_pixmap.crop r, some r⟩ := by
    rw [hL, List.get?_append_right (by omega), hLtake]
    simp
  have hMH : MAX_HISTORY = 20 := rfl
  by_cases hc : MAX_HISTORY < L.length
  · rw [if_pos hc] at hsave
    have hn19 : 19 ≤ n := by omega
    obtain ⟨s2, s3, hu, he1, he2, hre, he3, he4⟩ := undo_redo_from_saved
      { s with annotation_states := L.drop 1,
               undo_redo_index := (↑(n + 1) : Int) - 1 } r st n
      (by omega) (by show (↑(n + 1) : Int) - 1 = (n : Int); omega)
      (by show (L.drop 1).length = n + 1
          simp only [List.length_drop]
          omega)
      (by show (L.drop 1).get? (n - 1) = some st
          rw [List.get?_drop, show 1 + (n - 1) = n by omega]
          exact hLn)
      hrect
      (by show (L.drop 1).get? n = some _
          rw [List.get?_drop, show 1 + n = n + 1 by omega]
          exact hLn1)
    exact ⟨_, s2, s3, hsave, rfl, hu, he1, he2, hre, he3, he4⟩
  · rw [if_neg hc] at hsave
    obtain ⟨s2, s3, hu, he1, he2, hre, he3, he4⟩ := undo_redo_from_saved
      { s with annotation_states := L, undo_redo_index := (↑(n + 1) : Int) } r st (n + 1)
      (by omega) rfl
      (by show L.length = n + 1 + 1; omega)
      (by show L.get? (n + 1 - 1) = some st
          rw [show n + 1 - 1 = n by omega]
          exact hLn)
      hrect
      (by show L.get? (n + 1) = some _; exact hLn1)
    exact ⟨_, s2, s3, hsave, rfl, hu, he1, he2, hre, he3, he4⟩

/-- Witness for `undo_redo_round_trip`: the 100×50 region (10,10)-(109,59)
with one committed snapshot at index 0, committed again, undone and
redone. -/
theorem undo_redo_round_trip_witness :
    (boundaryState.dpr ≤ 1 ∧ boundaryState.content_rect = some demoRect ∧
     MIN_SIZE < demoRect.width ∧ MIN_SIZE < demoRect.height ∧
     boundaryState.undo_redo_index = ((0 : ℕ) : Int) ∧
     boundaryState.annotation_states.get? 0 = some ⟨blankCanvas, some demoRect⟩ ∧
     (⟨blankCanvas, some demoRect⟩ : AnnotationState).selection_rect = some demoRect) ∧
    (∃ s1 s2 s3 : CaptureState,
      saveAnnotationState boundaryState = some s1 ∧
      s1.base_pixmap = boundaryState.base_pixmap ∧
      undo_action s1 = some s2 ∧
      s2.undo_redo_index = s1.undo_redo_index - 1 ∧
      (∀ x y : Int, demoRect.left ≤ x → x ≤ demoRect.right →
        demoRect.top ≤ y → y ≤ demoRect.bottom →
        s2.base_pixmap x y =
          (⟨blankCanvas, some demoRect⟩ : AnnotationState).screenshot
            (x - demoRect.left) (y - demoRect.top)) ∧
      redo_action s2 = some s3 ∧
      s3.undo_redo_index = s1.undo_redo_index ∧
      (∀ x y : Int, s3.base_pixmap x y = s1.base_pixmap x y)) :=
  ⟨⟨by norm_num [boundaryState], rfl, by decide, by decide, rfl, rfl, rfl⟩,
   undo_redo_round_trip boundaryState demoRect ⟨blankCanvas, some demoRect⟩
     (by norm_num [boundaryState]) rfl (by decide) (by decide) 0 rfl rfl rfl⟩

/-- Witness for `history_index_invariant`: on a two-snapshot history at
index 1, the pre-undo lookup succeeds and the initialized-then-saved history
satisfies the invariant. -/
theorem history_index_invariant_witness :
    HistoryInv twoSnapshotState ∧
    (0 < twoSnapshotState.undo_redo_index →
      (pyGet twoSnapshotState.annotation_states
        (twoSnapshotState.undo_redo_index - 1)).isSome) :=
  ⟨⟨by decide, by simp [twoSnapshotState]⟩,
   ((history_index_invariant twoSnapshotState).2
     ⟨by decide, by simp [twoSnapshotState]⟩).2.1⟩

/-! ## Theorems: C4, history transfer on pinning -/

/-- C4: Pinning a region whose history holds `n ≥ 1` committed snapshots at
index `i` hands the editor's history list and index unchanged to the newly
created `PinnedOverlay` (which therefore has the same `n` snapshots at the
same index `i`), while the editor's history reference becomes an empty list
(length 0). -/
theorem pin_transfers_history (s : CaptureState) (r : QRect)
    (hr : s.content_rect = some r) (hw : MIN_SIZE < r.width) (hh : MIN_SIZE < r.height)
    (hne : s.annotation_states ≠ []) :
    ∃ pw : PinnedState,
      pin_to_screen s = ({ s with annotation_states := [] }, some pw) ∧
      pw.annotation_states = s.annotation_states ∧
      pw.annotation_states.length = s.annotation_states.length ∧
      pw.undo_redo_index = s.undo_redo_index ∧
      (pin_to_screen s).1.annotation_states.length = 0 := by
  have hexp := getContentForExport_some s r hr hw hh
  have hinit : pinnedOverlayInit (s.base_pixmap.crop (scaleRect s.dpr r))
      s.annotation_states s.undo_redo_index =
      { base_pixmap := s.base_pixmap.crop (scaleRect s.dpr r),
        annotation_states := s.annotation_states,
        undo_redo_index := s.undo_redo_index } := by
    unfold pinnedOverlayInit
    rw [if_neg (by simpa using hne)]
  have hpin : pin_to_screen s =
      ({ s with annotation_states := [] },
        some { base_pixmap := s.base_pixmap.crop (scaleRect s.dpr r),
               annotation_states := s.annotation_states,
               undo_redo_index := s.undo_redo_index }) := by
    simp only [pin_to_screen, hexp, hinit]
  refine ⟨_, hpin, rfl, rfl, rfl, ?_⟩
  rw [hpin]
  rfl

/-- Witness for `pin_transfers_history`: pinning an editor with two
committed snapshots at index 1 empties the editor's history and hands the
two snapshots at index 1 to the overlay. -/
theorem pin_transfers_history_witness :
    (twoSnapshotState.content_rect = some demoRect ∧
     MIN_SIZE < demoRect.width ∧ MIN_SIZE < demoRect.height ∧
     twoSnapshotState.annotation_states ≠ []) ∧
    (∃ pw : PinnedState,
      pin_to_screen twoSnapshotState =
        ({ twoSnapshotState with annotation_states := [] }, some pw) ∧
      pw.annotation_states = twoSnapshotState.annotation_states ∧
      pw.annotation_states.length = twoSnapshotState.annotation_states.length ∧
      pw.undo_redo_index = twoSnapshotState.undo_redo_index ∧
      (pin_to_screen twoSnapshotState).1.annotation_states.length = 0) :=
  ⟨⟨rfl, by decide, by decide, by simp [twoSnapshotState]⟩,
   pin_transfers_history twoSnapshotState demoRect rfl (by decide) (by decide)
     (by simp [twoSnapshotState])⟩

/-! ## Theorems: C5, the minimum-selection floor -/

/-- C5 counterexample: the claim says a 3×3-pixel selection (below a claimed
10px floor) is discarded on release with no snapshot and no toolbar; on the
code, releasing the 3×3 selection (5,5)-(7,7) keeps the region (corners are
frozen, not reset to `None`), saves one snapshot, and shows the toolbar,
because the code's floor is `MIN_SIZE = 2`. -/
theorem finalize_3x3_kept_counterexample :
    ((QRect.ofPoints ⟨5, 5⟩ ⟨7, 7⟩).normalized.width = 3 ∧
     (QRect.ofPoints ⟨5, 5⟩ ⟨7, 7⟩).normalized.height = 3) ∧
    (finalizeSelection c5state).map
      (fun p => (p.1.start_pos, p.1.end_pos, p.1.annotation_states.length, p.2)) =
      some (some ⟨5, 5⟩, some ⟨7, 7⟩, 1, true) := by
  exact ⟨⟨rfl, rfl⟩, rfl⟩

/-- C5 (amended): the minimum floor is `MIN_SIZE = 2`, not 10: releasing a
drag-selection whose width or height is ≤ 2px (or with no region at all)
discards the region (start/end reset to `None`, so the controller is back to
Idle), creates no Snapshot (the history is untouched), and shows no toolbar;
a selection with both dimensions above 2px — e.g. 3×3 — is normalized into
its corners and frozen, the toolbar is shown, and a single initial snapshot
is saved. -/
theorem finalize_min_floor (s : CaptureState) :
    (s.content_rect = none →
      finalizeSelection s = some ({ s with start_pos := none, end_pos := none }, false)) ∧
    (∀ r, s.content_rect = some r → (r.width ≤ MIN_SIZE ∨ r.height ≤ MIN_SIZE) →
      finalizeSelection s = some ({ s with start_pos := none, end_pos := none }, false)) ∧
    (∀ r, s.content_rect = some r → MIN_SIZE < r.width → MIN_SIZE < r.height →
      ∃ s', finalizeSelection s = some (s', true) ∧
        s'.start_pos = some r.topLeft ∧ s'.end_pos = some r.bottomRight ∧
        s'.annotation_states.length = 1 ∧ s'.undo_redo_index = 0 ∧
        s'.base_pixmap = s.base_pixmap) := by
  have hM : MIN_SIZE = 2 := rfl
  refine ⟨?_, ?_, ?_⟩
  · intro hnone
    simp only [finalizeSelection, hnone]
  · intro r hr hsmall
    simp only [finalizeSelection, hr]
    rw [if_pos hsmall]
  · intro r hr hw hh
    have hlr : r.left ≤ r.right := by
      have := r.width
      simp only [QRect.width, hM] at hw
      omega
    have htb : r.top ≤ r.bottom := by
      simp only [QRect.height, hM] at hh
      omega
    have hnorm : QRect.normalized
        (QRect.ofPoints r.topLeft r.bottomRight) = r := by
      simp only [QRect.normalized, QRect.ofPoints, QRect.topLeft, QRect.bottomRight]
      rw [if_neg (by omega), if_neg (by omega)]
    set s1 : CaptureState := { s with start_pos := some r.topLeft,
                                      end_pos := some r.bottomRight } with hs1
    have hcr1 : (initAnnotationStates s1).content_rect = some r := by
      show some (QRect.normalized (QRect.ofPoints r.topLeft r.bottomRight)) = some r
      rw [hnorm]
    have hexp := getContentForExport_some (initAnnotationStates s1) r hcr1 hw hh
    have hsave := saveAnnotationState_of_export (initAnnotationStates s1) _ r hexp
    rw [show (initAnnotationStates s1).undo_redo_index + 1 = ((0 : ℕ) : Int) by
        show (-1 : Int) + 1 = ((0 : ℕ) : Int); norm_num,
      pySliceTo_natCast] at hsave
    simp only [] at hsave
    rw [if_neg (by
      show ¬ MAX_HISTORY < (((initAnnotationStates s1).annotation_states.take 0 ++ _).length)
      simp [MAX_HISTORY])] at hsave
    simp only [finalizeSelection, hr]
    rw [if_neg (by push_neg; exact ⟨hw, hh⟩)]
    rw [hsave]
    refine ⟨_, rfl, rfl, rfl, ?_, ?_, rfl⟩
    · show ((initAnnotationStates s1).annotation_states.take 0 ++ _).length = 1
      simp
    · show (-1 : Int) + 1 = 0
      norm_num

/-- Witness for `finalize_min_floor`: releasing a 2×2 selection discards it,
and releasing the 3×3 selection of the counterexample freezes it. -/
theorem finalize_min_floor_witness :
    (c5smallState.content_rect = some ⟨0, 0, 1, 1⟩ ∧
      (⟨0, 0, 1, 1⟩ : QRect).width ≤ MIN_SIZE) ∧
    finalizeSelection c5smallState =
      some ({ c5smallState with start_pos := none, end_pos := none }, false) ∧
    (∃ s', finalizeSelection c5state = some (s', true) ∧
      s'.start_pos = some (⟨5, 5, 7, 7⟩ : QRect).topLeft ∧
      s'.end_pos = some (⟨5, 5, 7, 7⟩ : QRect).bottomRight ∧
      s'.annotation_states.length = 1 ∧ s'.undo_redo_index = 0 ∧
      s'.base_pixmap = c5state.base_pixmap) :=
  ⟨⟨rfl, by decide⟩,
   (finalize_min_floor c5smallState).2.1 ⟨0, 0, 1, 1⟩ rfl (Or.inl (by decide)),
   (finalize_min_floor c5state).2.2 ⟨5, 5, 7, 7⟩ rfl (by decide) (by decide)⟩

/-! ## Theorems: C8, the pen clamp -/

theorem containsPt_iff (r : QRect) (p : QPoint) :
    r.containsPt p = true ↔
      (r.left ≤ p.x ∧ p.x ≤ r.right ∧ r.top ≤ p.y ∧ p.y ≤ r.bottom) := by
  simp [QRect.containsPt]

/-- C8 counterexample: with region (0,0)-(100,100) and pen width 2, leaving
the region to (200,50) clamps the pen to x = 98 = right − 1 − penWidth/2
(not right − penWidth/2 = 99 as the claim's formula says), and after the
pointer re-enters the region at (50,50) the move is a strict no-op — motion
stays suppressed instead of resuming on re-entry. -/
theorem pen_clamp_counterexample :
    c8afterClamp.last_point_clamped = true ∧
    c8afterClamp.last_point = ⟨98, 50⟩ ∧
    c8rect.containsPt ⟨50, 50⟩ = true ∧
    (penDrawBounds c8rect 2).containsPt ⟨50, 50⟩ = true ∧
    handlePenMouseMove c8rect 2 c8afterClamp ⟨50, 50⟩ = c8afterClamp := by
  exact ⟨rfl, rfl, rfl, rfl, rfl⟩

/-- C8 (amended): while drawing a pen stroke, a pointer position outside the
pen-inset draw bounds is clamped to one pixel inside the innermost position
the pen half-width allows (`region.edge ± (1 + ⌊penWidth/2⌋)`) and the
suppression flag is set; once set, every further move of the stroke — even
after the pointer re-enters the region — is a strict no-op until the next
mouse press starts a new stroke (which clears the flag); and every endpoint
of every segment drawn during a stroke that began inside the draw bounds
stays inside them, so the pen center never leaves the pen-inset region. -/
theorem pen_clamp_behavior (content_rect : QRect) (penWidth : Int)
    (hxgap : content_rect.left + 1 + penHalfWidth penWidth ≤
      content_rect.right - 1 - penHalfWidth penWidth)
    (hygap : content_rect.top + 1 + penHalfWidth penWidth ≤
      content_rect.bottom - 1 - penHalfWidth penWidth) :
    (∀ (st : PenDrawState) (pos : QPoint), st.last_point_clamped = true →
      handlePenMouseMove content_rect penWidth st pos = st) ∧
    (∀ pos : QPoint, (handlePenMousePress pos).last_point_clamped = false) ∧
    (∀ pos : QPoint,
      content_rect.left + 1 + penHalfWidth penWidth ≤
        (clampPosToOnlyPixmap content_rect penWidth pos).x ∧
      (clampPosToOnlyPixmap content_rect penWidth pos).x ≤
        content_rect.right - 1 - penHalfWidth penWidth ∧
      content_rect.top + 1 + penHalfWidth penWidth ≤
        (clampPosToOnlyPixmap content_rect penWidth pos).y ∧
      (clampPosToOnlyPixmap content_rect penWidth pos).y ≤
        content_rect.bottom - 1 - penHalfWidth penWidth) ∧
    (∀ (st : PenDrawState) (pos : QPoint), st.last_point_clamped = false →
      (penDrawBounds content_rect penWidth).containsPt pos = false →
      (handlePenMouseMove content_rect penWidth st pos).last_point =
        clampPosToOnlyPixmap content_rect penWidth pos ∧
      (handlePenMouseMove content_rect penWidth st pos).last_point_clamped = true ∧
      (handlePenMouseMove content_rect penWidth st pos).segments =
        st.segments ++ [(st.last_point, clampPosToOnlyPixmap content_rect penWidth pos)]) ∧
    (∀ (pressPos : QPoint) (moves : List QPoint),
      (penDrawBounds content_rect penWidth).containsPt pressPos = true →
      ∀ seg ∈ (penStroke content_rect penWidth pressPos moves).segments,
        (penDrawBounds content_rect penWidth).containsPt seg.1 = true ∧
        (penDrawBounds content_rect penWidth).containsPt seg.2 = true) := by
  have hclamp : ∀ pos : QPoint,
      content_rect.left + 1 + penHalfWidth penWidth ≤
        (clampPosToOnlyPixmap content_rect penWidth pos).x ∧
      (clampPosToOnlyPixmap content_rect penWidth pos).x ≤
        content_rect.right - 1 - penHalfWidth penWidth ∧
      content_rect.top + 1 + penHalfWidth penWidth ≤
        (clampPosToOnlyPixmap content_rect penWidth pos).y ∧
      (clampPosToOnlyPixmap content_rect penWidth pos).y ≤
        content_rect.bottom - 1 - penHalfWidth penWidth := by
    intro pos
    simp only [clampPosToOnlyPixmap]
    refine ⟨?_, ?_, ?_, ?_⟩ <;> omega
  have hclampIn : ∀ pos : QPoint,
      (penDrawBounds content_rect penWidth).containsPt
        (clampPosToOnlyPixmap content_rect penWidth pos) = true := by
    intro pos
    rw [containsPt_iff]
    have h := hclamp pos
    simp only [penDrawBounds, QRect.adjusted]
    omega
  have hstep : ∀ (st : PenDrawState) (pos : QPoint),
      (penDrawBounds content_rect penWidth).containsPt st.last_point = true →
      (∀ seg ∈ st.segments,
        (penDrawBounds content_rect penWidth).containsPt seg.1 = true ∧
        (penDrawBounds content_rect penWidth).containsPt seg.2 = true) →
      (penDrawBounds content_rect penWidth).containsPt
        (handlePenMouseMove content_rect penWidth st pos).last_point = true ∧
      (∀ seg ∈ (handlePenMouseMove content_rect penWidth st pos).segments,
        (penDrawBounds content_rect penWidth).containsPt seg.1 = true ∧
        (penDrawBounds content_rect penWidth).containsPt seg.2 = true) := by
    intro st pos hlast hsegs
    unfold handlePenMouseMove
    by_cases hflag : st.last_point_clamped
    · rw [if_pos hflag]
      exact ⟨hlast, hsegs⟩
    · rw [if_neg hflag]
      simp only []
      by_cases hout : (penDrawBounds content_rect penWidth).containsPt pos
      · rw [if_neg (by simpa using hout)]
        refine ⟨hout, ?_⟩
        intro seg hseg
        rcases List.mem_append.mp hseg with hseg | hseg
        · exact hsegs seg hseg
        · rcases List.mem_singleton.mp hseg with rfl
          exact ⟨hlast, hout⟩
      · rw [if_pos (by simpa using hout)]
        refine ⟨hclampIn pos, ?_⟩
        intro seg hseg
        rcases List.mem_append.mp hseg with hseg | hseg
        · exact hsegs seg hseg
        · rcases List.mem_singleton.mp hseg with rfl
          exact ⟨hlast, hclampIn pos⟩
  refine ⟨?_, fun _ => rfl, hclamp, ?_, ?_⟩
  · intro st pos hflag
    unfold handlePenMouseMove
    rw [if_pos hflag]
  · intro st pos hflag hout
    unfold handlePenMouseMove
    rw [if_neg (by simp [hflag])]
    simp only []
    rw [if_pos (by simp [hout])]
    exact ⟨rfl, rfl, rfl⟩
  · intro pressPos moves hpress
    have hgen : ∀ (ms : List QPoint) (st : PenDrawState),
        (penDrawBounds content_rect penWidth).containsPt st.last_point = true →
        (∀ seg ∈ st.segments,
          (penDrawBounds content_rect penWidth).containsPt seg.1 = true ∧
          (penDrawBounds content_rect penWidth).containsPt seg.2 = true) →
        ∀ seg ∈ (ms.foldl (handlePenMouseMove content_rect penWidth) st).segments,
          (penDrawBounds content_rect penWidth).containsPt seg.1 = true ∧
          (penDrawBounds content_rect penWidth).containsPt seg.2 = true := by
      intro ms
      induction ms with
      | nil => intro st hlast hsegs; exact hsegs
      | cons m ms ih =>
          intro st hlast hsegs
          obtain ⟨hlast', hsegs'⟩ := hstep st m hlast hsegs
          exact ih _ hlast' hsegs'
    exact hgen moves (handlePenMousePress pressPos) hpress (by simp [handlePenMousePress])

/-- Witness for `pen_clamp_behavior` on the counterexample's region and pen
width: the stroke press at (50,50), move out to (200,50), move back to
(50,50) leaves both recorded segment endpoints inside the draw bounds. -/
theorem pen_clamp_behavior_witness :
    (c8rect.left + 1 + penHalfWidth 2 ≤ c8rect.right - 1 - penHalfWidth 2 ∧
     c8rect.top + 1 + penHalfWidth 2 ≤ c8rect.bottom - 1 - penHalfWidth 2) ∧
    ((penDrawBounds c8rect 2).containsPt ⟨50, 50⟩ = true ∧
     ∀ seg ∈ (penStroke c8rect 2 ⟨50, 50⟩ [⟨200, 50⟩, ⟨50, 50⟩]).segments,
       (penDrawBounds c8rect 2).containsPt seg.1 = true ∧
       (penDrawBounds c8rect 2).containsPt seg.2 = true) :=
  ⟨⟨by decide, by decide⟩,
   ⟨by decide,
    (pen_clamp_behavior c8rect 2 (by decide) (by decide)).2.2.2.2 ⟨50, 50⟩
      [⟨200, 50⟩, ⟨50, 50⟩] (by decide)⟩⟩

/-! ## Theorems: C9, multi-screen compositing -/

theorem le_foldl_max {β : Type} [LinearOrder β] (f : ScreenDesc → β) :
    ∀ (l : List ScreenDesc) (a : β), a ≤ l.foldl (fun acc t => max acc (f t)) a := by
  intro l
  induction l with
  | nil => intro a; exact le_refl a
  | cons x xs ih => intro a; exact le_trans (le_max_left a (f x)) (ih (max a (f x)))

theorem mem_le_foldl_max {β : Type} [LinearOrder β] (f : ScreenDesc → β) :
    ∀ (l : List ScreenDesc) (a : β) (x : ScreenDesc), x ∈ l →
      f x ≤ l.foldl (fun acc t => max acc (f t)) a := by
  intro l
  induction l with
  | nil => intro a x hx; cases hx
  | cons y ys ih =>
      intro a x hx
      rcases List.mem_cons.mp hx with rfl | hx
      · exact le_trans (le_max_right a (f x)) (le_foldl_max f ys (max a (f x)))
      · exact ih (max a (f y)) x hx

theorem foldl_max_mem {β : Type} [LinearOrder β] (f : ScreenDesc → β) :
    ∀ (l : List ScreenDesc) (a : β),
      l.foldl (fun acc t => max acc (f t)) a = a ∨
      ∃ x ∈ l, l.foldl (fun acc t => max acc (f t)) a = f x := by
  intro l
  induction l with
  | nil => intro a; exact Or.inl rfl
  | cons y ys ih =>
      intro a
      rcases ih (max a (f y)) with h | ⟨x, hx, h⟩
      · rcases max_choice a (f y) with hm | hm
        · left
          rw [List.foldl_cons, h, hm]
        · right
          exact ⟨y, List.mem_cons_self y ys, by rw [List.foldl_cons, h, hm]⟩
      · right
        exact ⟨x, List.mem_cons_of_mem y hx, by rw [List.foldl_cons]; exact h⟩

/-- `max(dpr for screen in screens)` really is the maximum: it is attained
by some screen and no screen exceeds it. -/
theorem maxDevicePixelRatio_spec (screens : List ScreenDesc) (hne : screens ≠ []) :
    (∃ t ∈ screens, t.dpr = maxDevicePixelRatio screens) ∧
    (∀ t ∈ screens, t.dpr ≤ maxDevicePixelRatio screens) := by
  match screens with
  | [] => exact absurd rfl hne
  | sc :: rest =>
      constructor
      · rcases foldl_max_mem (fun t => t.dpr) rest sc.dpr with h | ⟨x, hx, h⟩
        · exact ⟨sc, List.mem_cons_self _ _, h.symm⟩
        · exact ⟨x, List.mem_cons_of_mem _ hx, h.symm⟩
      · intro t ht
        rcases List.mem_cons.mp ht with rfl | ht
        · exact le_foldl_max (fun t => t.dpr) rest t.dpr
        · exact mem_le_foldl_max (fun t => t.dpr) rest sc.dpr t ht

theorem pyInt_intCast (q : Int) : pyInt ((q : Int) : ℚ) = q := by
  unfold pyInt
  by_cases hq : ((q : Int) : ℚ) < 0
  · rw [if_pos hq, show (-((q : Int) : ℚ)) = ((-q : Int) : ℚ) by push_cast; ring,
      Int.floor_intCast]
    omega
  · rw [if_neg hq]
    exact Int.floor_intCast q

/-- C9: Compositing any non-empty set of screens produces an output buffer
whose pixel dimensions equal the virtual desktop logical size multiplied by
the maximum device-pixel ratio across all screens (via Python's `int(...)`,
which is the identity whenever the product is integral), and every captured
screen is placed at offset `(screen.origin − virtual.min)`; a screen whose
own ratio differs from the maximum is smoothly resampled up to the common
ratio before placement (it is never rendered at native size), while a screen
already at the maximum ratio is placed natively. -/
theorem capture_all_screens_spec (screens : List ScreenDesc) (hne : screens ≠ []) :
    let b := get_virtual_desktop_bounds screens
    let maxDpr := maxDevicePixelRatio screens
    ∃ out : CombinedCapture,
      capture_all_screens screens = some out ∧
      out.bufferDpr = maxDpr ∧
      ((∃ t ∈ screens, t.dpr = maxDpr) ∧ ∀ t ∈ screens, t.dpr ≤ maxDpr) ∧
      out.bufferW = pyInt (((b.maxX - b.minX + 1 : Int) : ℚ) * maxDpr) ∧
      out.bufferH = pyInt (((b.maxY - b.minY + 1 : Int) : ℚ) * maxDpr) ∧
      (∀ pw : Int, ((b.maxX - b.minX + 1 : Int) : ℚ) * maxDpr = (pw : ℚ) →
        out.bufferW = pw) ∧
      (∀ ph : Int, ((b.maxY - b.minY + 1 : Int) : ℚ) * maxDpr = (ph : ℚ) →
        out.bufferH = ph) ∧
      out.placements.length = screens.length ∧
      (∀ (i : ℕ) (sc : ScreenDesc), screens.get? i = some sc → sc.captureOk = true →
        (sc.dpr ≠ maxDpr →
          out.placements.get? i = some (some (Placement.scaled
            (sc.left - b.minX) (sc.top - b.minY)
            (pyInt ((sc.width : ℚ) * maxDpr)) (pyInt ((sc.height : ℚ) * maxDpr)) true))) ∧
        (sc.dpr = maxDpr →
          out.placements.get? i =
            some (some (Placement.native (sc.left - b.minX) (sc.top - b.minY))))) := by
  intro b maxDpr
  have hcap : capture_all_screens screens = some
      { bufferW := pyInt (((b.maxX - b.minX + 1 : Int) : ℚ) * maxDpr),
        bufferH := pyInt (((b.maxY - b.minY + 1 : Int) : ℚ) * maxDpr),
        bufferDpr := maxDpr,
        placements := screens.map (placeScreen b maxDpr) } := by
    unfold capture_all_screens
    rw [if_neg (by simpa [List.isEmpty_iff] using hne)]
  refine ⟨_, hcap, rfl, maxDevicePixelRatio_spec screens hne, rfl, rfl, ?_, ?_, ?_, ?_⟩
  · intro pw hpw
    show pyInt (((b.maxX - b.minX + 1 : Int) : ℚ) * maxDpr) = pw
    rw [hpw, pyInt_intCast]
  · intro ph hph
    show pyInt (((b.maxY - b.minY + 1 : Int) : ℚ) * maxDpr) = ph
    rw [hph, pyInt_intCast]
  · show (screens.map (placeScreen b maxDpr)).length = screens.length
    simp
  · intro i sc hsc hok
    have hmap : (screens.map (placeScreen b maxDpr)).get? i =
        some (placeScreen b maxDpr sc) := by
      rw [List.get?_map, hsc]
      rfl
    constructor
    · intro hdne
      show (screens.map (placeScreen b maxDpr)).get? i = _
      rw [hmap]
      unfold placeScreen
      rw [if_pos hok, if_pos hdne]
    · intro hdeq
      show (screens.map (placeScreen b maxDpr)).get? i = _
      rw [hmap]
      unfold placeScreen
      rw [if_pos hok, if_neg (by simp [hdeq])]

/-- Witness for `capture_all_screens_spec` on two screens with ratios 1
and 2. -/
theorem capture_all_screens_spec_witness :
    twoScreens ≠ [] ∧
    (let b := get_virtual_desktop_bounds twoScreens
     let maxDpr := maxDevicePixelRatio twoScreens
     ∃ out : CombinedCapture,
      capture_all_screens twoScreens = some out ∧
      out.bufferDpr = maxDpr ∧
      ((∃ t ∈ twoScreens, t.dpr = maxDpr) ∧ ∀ t ∈ twoScreens, t.dpr ≤ maxDpr) ∧
      out.bufferW = pyInt (((b.maxX - b.minX + 1 : Int) : ℚ) * maxDpr) ∧
      out.bufferH = pyInt (((b.maxY - b.minY + 1 : Int) : ℚ) * maxDpr) ∧
      (∀ pw : Int, ((b.maxX - b.minX + 1 : Int) : ℚ) * maxDpr = (pw : ℚ) →
        out.bufferW = pw) ∧
      (∀ ph : Int, ((b.maxY - b.minY + 1 : Int) : ℚ) * maxDpr = (ph : ℚ) →
        out.bufferH = ph) ∧
      out.placements.length = twoScreens.length ∧
      (∀ (i : ℕ) (sc : ScreenDesc), twoScreens.get? i = some sc → sc.captureOk = true →
        (sc.dpr ≠ maxDpr →
          out.placements.get? i = some (some (Placement.scaled
            (sc.left - b.minX) (sc.top - b.minY)
            (pyInt ((sc.width : ℚ) * maxDpr)) (pyInt ((sc.height : ℚ) * maxDpr)) true))) ∧
        (sc.dpr = maxDpr →
          out.placements.get? i =
            some (some (Placement.native (sc.left - b.minX) (sc.top - b.minY)))))) :=
  ⟨by decide, capture_all_screens_spec twoScreens (by decide)⟩

end ShotNPin
